import Mathlib

/-!
Shallow embedding of the LinkVault client core (src/app/page.tsx,
src/lib/aiService.ts, src/app/api/metadata/route.ts) and proofs of the
spec claims about it.

JavaScript strings are modelled by Lean `String`; `s.includes(q)` is
contiguous-substring containment, `s.toLowerCase()` is per-character ASCII
lowercasing, `s.trim()` removes leading and trailing whitespace.
JavaScript `string | null` fields are `Option String`; absent/`undefined`
values read through JSON are `none`.
-/

/-- JavaScript `s.toLowerCase()`, modelled per character (ASCII case
mapping, as in `Char.toLower`). -/
def jsToLower (s : String) : String :=
  String.mk (s.toList.map Char.toLower)

/-- JavaScript `s.trim()`: remove leading and trailing whitespace. -/
def jsTrim (s : String) : String :=
  String.mk (((s.toList.dropWhile Char.isWhitespace).reverse.dropWhile
    Char.isWhitespace).reverse)

/-- JavaScript `hay.includes(needle)`: `needle` occurs as a contiguous
substring of `hay`. -/
def jsIncludes (hay needle : String) : Bool :=
  decide (needle.toList <:+: hay.toList)

/-- The `LinkType` interface of src/app/page.tsx: one stored link row as
fetched from the store. -/
structure LinkType where
  id : String
  user_id : String
  url : String
  title : Option String
  description : Option String
  tags : List String
  category : Option String
  created_at : String
  favicon_url : Option String
deriving DecidableEq

/-- The three filter-state `useState` fields of the dashboard page:
`searchQuery` (a string, possibly empty), `selectedTag` and
`selectedCategory` (`string | null`). -/
structure FilterState where
  searchQuery : String
  selectedTag : Option String
  selectedCategory : Option String
deriving DecidableEq

/-- The predicate of the search branch of `filteredLinks`: the (already
lowercased and trimmed) query is a substring of the lowercased URL, title,
description, category, or some tag.  Optional chaining on a `null` field
yields `undefined`, which is falsy. -/
def matchesQuery (query : String) (link : LinkType) : Bool :=
  jsIncludes (jsToLower link.url) query ||
  (match link.title with
   | some t => jsIncludes (jsToLower t) query
   | none => false) ||
  (match link.description with
   | some d => jsIncludes (jsToLower d) query
   | none => false) ||
  (match link.category with
   | some c => jsIncludes (jsToLower c) query
   | none => false) ||
  link.tags.any (fun tag => jsIncludes (jsToLower tag) query)

/-- The final `else if (selectedCategory)` step of `filteredLinks`.
A `null` or empty-string `selectedCategory` is falsy, so the step keeps
every link; otherwise it keeps links whose `category` strictly equals the
selected value (`null === selectedCategory` is `false`). -/
def filterByCategory (links : List LinkType) (fs : FilterState) : List LinkType :=
  match fs.selectedCategory with
  | some c => if c = "" then links else links.filter (fun l => l.category == some c)
  | none => links

/-- The `filteredLinks` useMemo of src/app/page.tsx.  The query is
`searchQuery.toLowerCase().trim()`; a non-empty query selects the search
branch, else a truthy `selectedTag` selects the tag branch
(`link.tags?.includes(selectedTag)`), else the category step runs. -/
def filteredLinks (links : List LinkType) (fs : FilterState) : List LinkType :=
  let query := jsTrim (jsToLower fs.searchQuery)
  if query = "" then
    match fs.selectedTag with
    | some t =>
      if t = "" then filterByCategory links fs
      else links.filter (fun l => l.tags.contains t)
    | none => filterByCategory links fs
  else
    links.filter (matchesQuery query)

/-- JavaScript `Set.add` on a set represented as its insertion-ordered
list of distinct elements: appends the element unless already present. -/
def setAdd (s : List String) (x : String) : List String :=
  if x ∈ s then s else s ++ [x]

/-- One step of the `categories` useMemo loop:
`if (link.category) uniqueCategories.add(link.category)`.  A `null` or
empty-string category is falsy and is skipped. -/
def addCategory (s : List String) (l : LinkType) : List String :=
  match l.category with
  | some c => if c = "" then s else setAdd s c
  | none => s

/-- One step of the `tags` useMemo loop:
`link.tags?.forEach(tag => uniqueTags.add(tag))`. -/
def addTags (s : List String) (l : LinkType) : List String :=
  l.tags.foldl setAdd s

/-- JavaScript `Array.from(set).sort()`: sort ascending (the default
comparator on strings is lexicographic). -/
def sortStrings (l : List String) : List String :=
  l.mergeSort (fun a b => decide (a ≤ b))

/-- The `categories` useMemo of src/app/page.tsx: the set of truthy
`category` values over all links, sorted ascending. -/
def categories (links : List LinkType) : List String :=
  sortStrings (links.foldl addCategory [])

/-- The `tags` useMemo of src/app/page.tsx: the set of all tag strings
over all links, sorted ascending. -/
def tags (links : List LinkType) : List String :=
  sortStrings (links.foldl addTags [])

/-- A parsed JSON document (the result of `JSON.parse`).  Numbers are
modelled as integers; no claim depends on fractional values. -/
inductive JsonValue where
  | null : JsonValue
  | bool (b : Bool) : JsonValue
  | num (n : Int) : JsonValue
  | str (s : String) : JsonValue
  | arr (elems : List JsonValue) : JsonValue
  | obj (fields : List (String × JsonValue)) : JsonValue

/-- JavaScript property access `v.key` on a parsed non-null JSON value:
the field of an object, `undefined` (here `none`) for any other non-null
value.  Property access on `null` THROWS a TypeError instead; that path
is modelled at the call sites: `validateElem` rejects a `null` element
with the TypeError message before any field is read, and in
`responseContent` a throw on a `null` body or element is caught by the
surrounding try/catch of `suggestTagsFromText`, which yields the same
empty suggestion list as the `none` this function returns there. -/
def getField (v : JsonValue) (key : String) : Option JsonValue :=
  match v with
  | .obj fields => fields.lookup key
  | _ => none

/-- JavaScript truthiness of a parsed JSON value. -/
def jsTruthy (v : JsonValue) : Bool :=
  match v with
  | .null => false
  | .bool b => b
  | .num n => n != 0
  | .str s => s != ""
  | .arr _ => true
  | .obj _ => true

/-- The record shape passed to the bulk insert in `handleFileChange`
(`linksToInsert` elements): the store assigns `id` and `created_at`
itself, so the payload carries neither. -/
structure InsertRecord where
  user_id : String
  url : String
  title : Option String
  description : Option String
  tags : List String
  category : Option String
  favicon_url : Option String
deriving DecidableEq

/-- The coercion `typeof x === 'string' ? x : null` applied to an
optional imported field. -/
def coerceStr (v : Option JsonValue) : Option String :=
  match v with
  | some (.str s) => some s
  | _ => none

/-- The tags coercion of `handleFileChange`:
`(Array.isArray(link.tags) ? link.tags.filter(t => typeof t === 'string'
&& t.length > 0) : []).map(t => t.trim())` — keep string-typed entries
that are non-empty BEFORE trimming, then trim each. -/
def coerceTags (v : Option JsonValue) : List String :=
  (match v with
   | some (JsonValue.arr xs) =>
     xs.filterMap (fun x =>
       match x with
       | JsonValue.str t => if t.length > 0 then some t else (none : Option String)
       | _ => none)
   | _ => ([] : List String)).map jsTrim

/-- Validation and coercion of one imported array element at a given
index, mirroring the body of the `importedLinks.map` callback in
`handleFileChange`.  A `null` element makes the very first property
access `link.url` throw a TypeError — caught by the surrounding
try/catch with a message that does not name the index (the real V8
message quotes the property name; the quotes are elided here).  Any
other element is rejected with the index-identifying error when
`link.url` is falsy or not a string; all other fields coerce without
error. -/
def validateElem (userId : String) (link : JsonValue) (index : Nat) :
    Except String InsertRecord :=
  match link with
  | .null => .error "Cannot read properties of null (reading url)"
  | _ =>
  match getField link "url" with
  | some (.str u) =>
    if u = "" then
      .error s!"Invalid data at index {index}: Missing/invalid URL."
    else
      .ok { user_id := userId
            url := u
            title := coerceStr (getField link "title")
            description := coerceStr (getField link "description")
            tags := coerceTags (getField link "tags")
            category := coerceStr (getField link "category")
            favicon_url := coerceStr (getField link "favicon_url") }
  | _ => .error s!"Invalid data at index {index}: Missing/invalid URL."

/-- The indexed `importedLinks.map` of `handleFileChange`: validate each
element left to right, aborting at the first thrown error. -/
def linksToInsert (userId : String) (elems : List JsonValue) (index : Nat) :
    Except String (List InsertRecord) :=
  match elems with
  | [] => .ok []
  | e :: rest =>
    match validateElem userId e index with
    | .error m => .error m
    | .ok r =>
      match linksToInsert userId rest (index + 1) with
      | .error m => .error m
      | .ok rs => .ok (r :: rs)

/-- Outcome of the import flow after `JSON.parse` succeeded: a caught
error shown as an error toast, the non-error empty-file warning, or the
bulk-insert payload. -/
inductive ImportOutcome where
  | importError (msg : String) : ImportOutcome
  | noLinks : ImportOutcome
  | insert (rows : List InsertRecord) : ImportOutcome
deriving DecidableEq

/-- The validation core of `handleFileChange` in src/app/page.tsx, from
the parsed document onwards: reject a non-array root, warn (without
inserting) on an empty array, otherwise validate every element and issue
the single bulk insert. -/
def handleFileChange (userId : String) (doc : JsonValue) : ImportOutcome :=
  match doc with
  | .arr elems =>
    if elems.length = 0 then .noLinks
    else
      match linksToInsert userId elems 0 with
      | .error m => .importError m
      | .ok rows => .insert rows
  | _ => .importError "Invalid JSON format: Expected an array."

/-- Serialization of an optional string field for export (`null` when
absent, as Supabase returns it). -/
def optStr (v : Option String) : JsonValue :=
  match v with
  | some s => .str s
  | none => .null

/-- One element of the exported JSON array in `handleExport`: the columns
selected are url, title, description, tags, category, created_at and
favicon_url (id and user_id are not selected). -/
def exportRow (l : LinkType) : JsonValue :=
  .obj [("url", .str l.url),
        ("title", optStr l.title),
        ("description", optStr l.description),
        ("tags", .arr (l.tags.map .str)),
        ("category", optStr l.category),
        ("created_at", .str l.created_at),
        ("favicon_url", optStr l.favicon_url)]

/-- The document produced by `handleExport` in src/app/page.tsx: a JSON
array of exported rows in fetch order. -/
def handleExport (links : List LinkType) : JsonValue :=
  .arr (links.map exportRow)

/-- The insert payload that importing an exported row reproduces: the
same url, title, description, tags, category and favicon, with the
caller's user id; `created_at` has no counterpart in the payload. -/
def insertOf (userId : String) (l : LinkType) : InsertRecord :=
  { user_id := userId
    url := l.url
    title := l.title
    description := l.description
    tags := l.tags
    category := l.category
    favicon_url := l.favicon_url }

/-- Outcome of the outbound `fetch` in `suggestTagsFromText`: an OK
response with a parsed JSON body, a non-OK HTTP response, or a thrown
network/parse failure. -/
inductive AIFetchResult where
  | ok (body : JsonValue) : AIFetchResult
  | httpError (status : Nat) (statusText : String) : AIFetchResult
  | networkFailure (msg : String) : AIFetchResult

/-- Environment of one `suggestTagsFromText` call: the two
`process.env` variables (absent when unset) and the behaviour of the
remote endpoint. -/
structure AIEnv where
  apiUrl : Option String
  apiKey : Option String
  fetchResult : AIFetchResult

/-- Helper for `jsSplitOnComma`: split a character list at every comma,
accumulating the current segment in reverse. -/
def splitCommaAux : List Char → List Char → List String
  | [], acc => [String.mk acc.reverse]
  | c :: rest, acc =>
    if c = ',' then String.mk acc.reverse :: splitCommaAux rest []
    else splitCommaAux rest (c :: acc)

/-- JavaScript `s.split(',')`: the comma-separated segments of `s`
(an empty string yields one empty segment, as in JavaScript). -/
def jsSplitOnComma (s : String) : List String :=
  splitCommaAux s.toList []

/-- Splitting of a successful response content in `suggestTagsFromText`:
`content.trim().split(',').map(t => t.trim().toLowerCase()).filter(t =>
t !== '' && t.length > 0)`. -/
def parseTags (content : String) : List String :=
  ((jsSplitOnComma (jsTrim content)).map
    (fun tag => jsToLower (jsTrim tag))).filter
    (fun tag => tag != "" && tag.length > 0)

/-- The shape check of `suggestTagsFromText`: `data.choices &&
data.choices.length > 0 && data.choices[0].message` followed by reading
`data.choices[0].message.content`, against the declared
`AISuggestionResponse` interface (`choices` an array).  Yields the
content string when the response has the expected shape, `none` when any
step fails (a non-string `content` makes `.trim()` throw, which the
surrounding catch turns into the empty suggestion list). -/
def responseContent (body : JsonValue) : Option String :=
  match getField body "choices" with
  | some (.arr (c0 :: _)) =>
    match getField c0 "message" with
    | some msg =>
      if jsTruthy msg then
        match getField msg "content" with
        | some (.str content) => some content
        | _ => none
      else none
    | none => none
  | _ => none

/-- The `suggestTagsFromText` function of src/lib/aiService.ts.  Every
failure path — blank input, missing configuration, a thrown fetch or
parse error, a non-OK response, or a response not shaped as
`{choices: [{message: {content: string}}]}` — returns `[]`; only an OK
response of the declared shape produces tags. -/
def suggestTagsFromText (env : AIEnv) (text : String) : List String :=
  if jsTrim text = "" then []
  else
    match env.apiUrl, env.apiKey with
    | some apiUrl, some apiKey =>
      if apiUrl = "" || apiKey = "" then []
      else
        match env.fetchResult with
        | .httpError _ _ => []
        | .networkFailure _ => []
        | .ok body =>
          match responseContent body with
          | some content => parseTags content
          | none => []
    | _, _ => []

/-- Behaviour of the upstream `fetch` in the metadata route: an OK
response carrying HTML, a non-OK response with its status, a thrown
timeout (AbortSignal), or another thrown failure. -/
inductive UpstreamOutcome where
  | ok (html : String) : UpstreamOutcome
  | nonOk (status : Nat) (statusText : String) : UpstreamOutcome
  | timeout : UpstreamOutcome
  | failure (msg : String) : UpstreamOutcome

/-- JavaScript `s.startsWith(p)`: `p` is a prefix of `s`. -/
def jsStartsWith (s p : String) : Bool :=
  p.toList.isPrefixOf s.toList

/-- The scheme prefixing of GET in src/app/api/metadata/route.ts:
prepend `http://` unless the string starts with the literal `http://` or
`https://`. -/
def withProtocol (s : String) : String :=
  if jsStartsWith s "http://" || jsStartsWith s "https://" then s
  else "http://" ++ s

/-- Result of a metadata GET in the model: the HTTP status returned and,
when a fetch was attempted, the URL string handed to URL construction
and then fetched. -/
structure GetResult where
  status : Nat
  fetchedUrl : Option String
deriving DecidableEq

/-- The GET handler of src/app/api/metadata/route.ts, abstracted over
WHATWG URL parsing (`validUrl` tells whether `new URL` succeeds; its
normalisation of the string is not modelled) and over the upstream fetch.
A falsy (`null` or empty) `url` parameter gives 400; a URL rejected by
`new URL` gives 400; a timeout gives 504; a non-OK upstream response
propagates its status; any other upstream failure gives 500. -/
def metadataGET (urlParam : Option String) (validUrl : String → Bool)
    (upstream : UpstreamOutcome) : GetResult :=
  match urlParam with
  | none => { status := 400, fetchedUrl := none }
  | some u =>
    if u = "" then { status := 400, fetchedUrl := none }
    else
      let urlWithProtocol := withProtocol u
      if validUrl urlWithProtocol then
        match upstream with
        | .ok _ => { status := 200, fetchedUrl := some urlWithProtocol }
        | .nonOk st _ => { status := st, fetchedUrl := some urlWithProtocol }
        | .timeout => { status := 504, fetchedUrl := some urlWithProtocol }
        | .failure _ => { status := 500, fetchedUrl := some urlWithProtocol }
      else { status := 400, fetchedUrl := none }

/-- Modelled from the spec: a URL string carries an explicit scheme when
it begins with an RFC-3986 scheme — a letter followed by
letters/digits/plus/minus/dot — terminated by a colon.  Used only to
state the claim that prefixing happens exactly when no scheme is given. -/
def hasScheme (s : String) : Bool :=
  match s.toList with
  | [] => false
  | c :: rest =>
    c.isAlpha &&
    (match rest.dropWhile (fun d => d.isAlphanum || d = '+' || d = '-' || d = '.') with
     | ':' :: _ => true
     | _ => false)

/-- The search-branch inclusion condition as the spec states it: the
query is a substring of the lowercased URL, title, description, category,
or one of the tags. -/
def SpecMatches (q : String) (l : LinkType) : Prop :=
  q.toList <:+: (jsToLower l.url).toList ∨
  (∃ t, l.title = some t ∧ q.toList <:+: (jsToLower t).toList) ∨
  (∃ d, l.description = some d ∧ q.toList <:+: (jsToLower d).toList) ∨
  (∃ c, l.category = some c ∧ q.toList <:+: (jsToLower c).toList) ∨
  (∃ tg ∈ l.tags, q.toList <:+: (jsToLower tg).toList)

/-- The category-step inclusion condition: with a non-empty selected
category, the record's category must equal it exactly; a `null` or
empty-string selection keeps every record. -/
def SpecCategory (fs : FilterState) (l : LinkType) : Prop :=
  match fs.selectedCategory with
  | some c => if c = "" then True else l.category = some c
  | none => True

/-- The full inclusion condition of the filter engine, stated
propositionally: a non-empty trimmed query selects by search; else a
non-empty selected tag selects by exact tag membership; else the
category step applies. -/
def SpecIncluded (fs : FilterState) (l : LinkType) : Prop :=
  if jsTrim (jsToLower fs.searchQuery) = "" then
    match fs.selectedTag with
    | some t => if t = "" then SpecCategory fs l else t ∈ l.tags
    | none => SpecCategory fs l
  else SpecMatches (jsTrim (jsToLower fs.searchQuery)) l

/-- The string-typed entries of an imported tags array, in order. -/
def stringEntries (xs : List JsonValue) : List String :=
  xs.filterMap (fun x =>
    match x with
    | JsonValue.str t => some t
    | _ => none)

/-- An imported element has a usable URL: the `url` field is present,
string-typed, and non-empty (JavaScript-truthy). -/
def goodUrl (e : JsonValue) : Prop :=
  ∃ u, getField e "url" = some (JsonValue.str u) ∧ u ≠ ""

theorem filterByCategory_sublist (links : List LinkType) (fs : FilterState) :
    (filterByCategory links fs).Sublist links := by
  unfold filterByCategory
  cases fs.selectedCategory with
  | none => exact List.Sublist.refl _
  | some c =>
    by_cases h : c = ""
    · simp [h]
    · simp only [if_neg h]
      exact List.filter_sublist _

/-- Claim C3: for every list of link records and every filter state, the
filtered-links output is a subsequence of the input list preserving the
original relative order. -/
theorem filteredLinks_sublist (links : List LinkType) (fs : FilterState) :
    (filteredLinks links fs).Sublist links := by
  unfold filteredLinks
  by_cases hq : jsTrim (jsToLower fs.searchQuery) = ""
  · simp only [hq, if_pos rfl]
    cases fs.selectedTag with
    | none => exact filterByCategory_sublist links fs
    | some t =>
      by_cases ht : t = ""
      · simp only [if_pos ht]
        exact filterByCategory_sublist links fs
      · simp only [if_neg ht]
        exact List.filter_sublist _
  · simp only [if_neg hq]
    exact List.filter_sublist _

/-- Claim C1: whenever the trimmed search query is non-empty, the engine
uses only the search branch — the result equals a plain filter by the
search predicate and is independent of any simultaneously set selected
tag or selected category. -/
theorem filteredLinks_search_precedence (links : List LinkType)
    (fs : FilterState) (h : jsTrim (jsToLower fs.searchQuery) ≠ "")
    (tg cat : Option String) :
    filteredLinks links fs =
      links.filter (matchesQuery (jsTrim (jsToLower fs.searchQuery)))
  ∧ filteredLinks links
      { searchQuery := fs.searchQuery, selectedTag := tg,
        selectedCategory := cat } =
      filteredLinks links fs := by
  constructor
  · unfold filteredLinks
    simp only [if_neg h]
  · unfold filteredLinks
    simp only [if_neg h]

/-- Witness for the search-precedence theorem: with query "y.com", a
selected tag "go" and a selected category "c" simultaneously set, the
result is the search filter and ignores the tag and category. -/
theorem filteredLinks_search_precedence_witness :
    jsTrim (jsToLower "y.com") ≠ ""
  ∧ (filteredLinks
      [{ id := "1", user_id := "u", url := "https://x.com", title := none,
         description := none, tags := ["go"], category := none,
         created_at := "", favicon_url := none }]
      { searchQuery := "y.com", selectedTag := some "go",
        selectedCategory := some "c" } =
      [{ id := "1", user_id := "u", url := "https://x.com", title := none,
         description := none, tags := ["go"], category := none,
         created_at := "", favicon_url := none }].filter
        (matchesQuery (jsTrim (jsToLower "y.com")))) := by
  refine ⟨by decide, ?_⟩
  exact (filteredLinks_search_precedence _
    { searchQuery := "y.com", selectedTag := some "go",
      selectedCategory := some "c" } (by decide) none none).1

theorem mem_setAdd {a x : String} {s : List String} :
    a ∈ setAdd s x ↔ a ∈ s ∨ a = x := by
  unfold setAdd
  by_cases h : x ∈ s
  · simp only [if_pos h]
    constructor
    · exact Or.inl
    · rintro (ha | rfl)
      · exact ha
      · exact h
  · simp [if_neg h]

theorem nodup_setAdd {s : List String} (h : s.Nodup) (x : String) :
    (setAdd s x).Nodup := by
  unfold setAdd
  by_cases hx : x ∈ s
  · simpa [if_pos hx] using h
  · simp [if_neg hx, List.nodup_append, h, hx]

theorem mem_foldl_setAdd (ts : List String) (s : List String) (x : String) :
    x ∈ ts.foldl setAdd s ↔ x ∈ s ∨ x ∈ ts := by
  induction ts generalizing s with
  | nil => simp
  | cons t ts ih =>
    simp only [List.foldl_cons, ih, mem_setAdd, List.mem_cons]
    tauto

theorem nodup_foldl_setAdd (ts : List String) {s : List String}
    (h : s.Nodup) : (ts.foldl setAdd s).Nodup := by
  induction ts generalizing s with
  | nil => exact h
  | cons t ts ih => exact ih (nodup_setAdd h t)

theorem mem_foldl_addCategory (links : List LinkType) (s : List String)
    (c : String) :
    c ∈ links.foldl addCategory s ↔
      c ∈ s ∨ ∃ l ∈ links, l.category = some c ∧ c ≠ "" := by
  induction links generalizing s with
  | nil => simp
  | cons l ls ih =>
    simp only [List.foldl_cons, ih, List.mem_cons]
    have hstep : c ∈ addCategory s l ↔
        c ∈ s ∨ (l.category = some c ∧ c ≠ "") := by
      unfold addCategory
      cases hcat : l.category with
      | none => simp [hcat]
      | some c0 =>
        by_cases h0 : c0 = ""
        · subst h0
          simp only [if_pos rfl]
          constructor
          · exact Or.inl
          · rintro (hc | ⟨heq, hne⟩)
            · exact hc
            · cases heq
              exact absurd rfl hne
        · simp only [if_neg h0, mem_setAdd]
          constructor
          · rintro (hc | rfl)
            · exact Or.inl hc
            · exact Or.inr ⟨rfl, h0⟩
          · rintro (hc | ⟨heq, _⟩)
            · exact Or.inl hc
            · cases heq
              exact Or.inr rfl
    rw [hstep]
    constructor
    · rintro (((hc | ⟨hcat, hne⟩) | ⟨l1, hl1, hcat, hne⟩))
      · exact Or.inl hc
      · exact Or.inr ⟨l, Or.inl rfl, hcat, hne⟩
      · exact Or.inr ⟨l1, Or.inr hl1, hcat, hne⟩
    · rintro (hc | ⟨l1, (rfl | hl1), hcat, hne⟩)
      · exact Or.inl (Or.inl hc)
      · exact Or.inl (Or.inr ⟨hcat, hne⟩)
      · exact Or.inr ⟨l1, hl1, hcat, hne⟩

theorem nodup_foldl_addCategory (links : List LinkType) {s : List String}
    (h : s.Nodup) : (links.foldl addCategory s).Nodup := by
  induction links generalizing s with
  | nil => exact h
  | cons l ls ih =>
    refine ih ?_
    unfold addCategory
    cases l.category with
    | none => exact h
    | some c0 =>
      by_cases h0 : c0 = ""
      · simpa [if_pos h0] using h
      · simpa [if_neg h0] using nodup_setAdd h c0

theorem mem_foldl_addTags (links : List LinkType) (s : List String)
    (t : String) :
    t ∈ links.foldl addTags s ↔ t ∈ s ∨ ∃ l ∈ links, t ∈ l.tags := by
  induction links generalizing s with
  | nil => simp
  | cons l ls ih =>
    simp only [List.foldl_cons, ih, addTags, mem_foldl_setAdd, List.mem_cons]
    constructor
    · rintro ((hs | hl) | ⟨l1, hl1, ht⟩)
      · exact Or.inl hs
      · exact Or.inr ⟨l, Or.inl rfl, hl⟩
      · exact Or.inr ⟨l1, Or.inr hl1, ht⟩
    · rintro (hs | ⟨l1, (rfl | hl1), ht⟩)
      · exact Or.inl (Or.inl hs)
      · exact Or.inl (Or.inr ht)
      · exact Or.inr ⟨l1, hl1, ht⟩

theorem nodup_foldl_addTags (links : List LinkType) {s : List String}
    (h : s.Nodup) : (links.foldl addTags s).Nodup := by
  induction links generalizing s with
  | nil => exact h
  | cons l ls ih => exact ih (nodup_foldl_setAdd l.tags h)

theorem sortStrings_perm (l : List String) : (sortStrings l).Perm l :=
  List.mergeSort_perm l _

theorem mem_sortStrings {x : String} {l : List String} :
    x ∈ sortStrings l ↔ x ∈ l := by
  unfold sortStrings
  exact List.mem_mergeSort

theorem sorted_sortStrings (l : List String) (h : l.Nodup) :
    (sortStrings l).Sorted (· < ·) := by
  have h1 : (sortStrings l).Pairwise (fun a b => decide (a ≤ b) = true) := by
    unfold sortStrings
    exact List.sorted_mergeSort
      (fun a b c hab hbc => by
        simp only [decide_eq_true_eq] at *
        exact le_trans hab hbc)
      (fun a b => by
        simp only [Bool.or_eq_true, decide_eq_true_eq]
        exact le_total a b) l
  have h2 : (sortStrings l).Nodup := ((sortStrings_perm l).nodup_iff).mpr h
  exact (h1.and h2).imp (fun hab =>
    lt_of_le_of_ne (by simpa using hab.1) hab.2)

/-- Claim C2 (amended): `categories` is strictly sorted ascending (hence
deduplicated) and contains exactly the non-absent, non-empty category
values; `tags` is strictly sorted ascending and contains exactly the tag
strings occurring in some record.  The amendment: the code skips an
empty-string category (JavaScript truthiness), which the claim counted
as a non-absent value. -/
theorem categories_tags_spec (links : List LinkType) :
    (categories links).Sorted (· < ·)
  ∧ (∀ c, c ∈ categories links ↔ ∃ l ∈ links, l.category = some c ∧ c ≠ "")
  ∧ (tags links).Sorted (· < ·)
  ∧ (∀ t, t ∈ tags links ↔ ∃ l ∈ links, t ∈ l.tags) := by
  refine ⟨?_, ?_, ?_, ?_⟩
  · exact sorted_sortStrings _ (nodup_foldl_addCategory links List.nodup_nil)
  · intro c
    unfold categories
    rw [mem_sortStrings, mem_foldl_addCategory]
    simp
  · exact sorted_sortStrings _ (nodup_foldl_addTags links List.nodup_nil)
  · intro t
    unfold tags
    rw [mem_sortStrings, mem_foldl_addTags]
    simp

/-- Counterexample to claim C2 as stated: a record whose category is the
non-absent value "" contributes nothing to `categories`, while the claim
requires every non-absent category value to appear. -/
theorem categories_empty_category_counterexample :
    (∃ l ∈ [{ id := "1", user_id := "u", url := "https://x.com",
              title := none, description := none, tags := [],
              category := some "", created_at := "",
              favicon_url := none : LinkType }], l.category = some "")
  ∧ categories
      [{ id := "1", user_id := "u", url := "https://x.com", title := none,
         description := none, tags := [], category := some "",
         created_at := "", favicon_url := none }] = [] := by
  constructor
  · exact ⟨_, List.mem_singleton.mpr rfl, rfl⟩
  · simp [categories, sortStrings, addCategory]

theorem matchesQuery_eq_true_iff (q : String) (l : LinkType) :
    matchesQuery q l = true ↔ SpecMatches q l := by
  unfold matchesQuery SpecMatches jsIncludes
  cases l.title <;> cases l.description <;> cases l.category <;>
    simp [List.any_eq_true] <;> tauto

theorem mem_filterByCategory (links : List LinkType) (fs : FilterState)
    (l : LinkType) :
    l ∈ filterByCategory links fs ↔ l ∈ links ∧ SpecCategory fs l := by
  unfold filterByCategory SpecCategory
  cases fs.selectedCategory with
  | none => simp
  | some c =>
    by_cases h : c = ""
    · simp [if_pos h]
    · simp only [if_neg h, List.mem_filter, beq_iff_eq]

/-- Claim C4 (amended): a record is in the filtered output iff it is an
input record satisfying the engine's inclusion condition — search by
substring when the trimmed query is non-empty; else exact tag membership
when a NON-EMPTY tag is selected; else exact category equality when a
NON-EMPTY category is selected; else always.  The amendment: a selected
empty-string tag or category is JavaScript-falsy, so the engine skips
that filter instead of applying it. -/
theorem filteredLinks_mem_iff (links : List LinkType) (fs : FilterState)
    (l : LinkType) :
    l ∈ filteredLinks links fs ↔ l ∈ links ∧ SpecIncluded fs l := by
  unfold filteredLinks SpecIncluded
  by_cases hq : jsTrim (jsToLower fs.searchQuery) = ""
  · simp only [hq, if_pos rfl]
    cases ht : fs.selectedTag with
    | none => exact mem_filterByCategory links fs l
    | some t =>
      by_cases ht0 : t = ""
      · simp only [if_pos ht0]
        exact mem_filterByCategory links fs l
      · simp only [if_neg ht0, List.mem_filter]
        simp
  · simp only [if_neg hq, List.mem_filter, matchesQuery_eq_true_iff]

/-- Counterexample to claim C4 as stated: with an empty trimmed query, a
selected tag "" and no selected category, a record whose tags are ["x"]
is included by the engine even though its tag sequence does not contain
the selected tag — the tag filter is skipped for the falsy selection
rather than applied. -/
theorem filteredLinks_selected_tag_counterexample :
    (({ searchQuery := "", selectedTag := some "",
        selectedCategory := none } : FilterState).selectedTag = some "")
  ∧ jsTrim (jsToLower (({ searchQuery := "", selectedTag := some "",
                          selectedCategory := none } : FilterState).searchQuery)) = ""
  ∧ (({ id := "1", user_id := "u", url := "https://x.com", title := none,
        description := none, tags := ["x"], category := none,
        created_at := "", favicon_url := none } : LinkType) ∈
      filteredLinks
        [{ id := "1", user_id := "u", url := "https://x.com", title := none,
           description := none, tags := ["x"], category := none,
           created_at := "", favicon_url := none }]
        { searchQuery := "", selectedTag := some "",
          selectedCategory := none })
  ∧ ("" : String) ∉
      ("x" :: ([] : List String)) := by
  exact ⟨rfl, by decide, by decide, by decide⟩

theorem string_length_pos_iff (t : String) : t.length > 0 ↔ t ≠ "" := by
  cases t with
  | mk data => cases data <;> simp [String.length, String.ext_iff]

/-- Claim C5 (amended): the imported tags are the string-typed entries
that are non-empty BEFORE trimming, each then trimmed — so a
whitespace-only entry survives the filter and becomes an empty-string
tag; any non-array or absent tags value yields the empty sequence; and
the example ["A", "", " b "] produces ["A", "b"]. -/
theorem coerceTags_spec (xs : List JsonValue) :
    coerceTags (some (.arr xs)) =
      ((stringEntries xs).filter (fun t => t != "")).map jsTrim
  ∧ (∀ v : Option JsonValue, (∀ ys, v ≠ some (.arr ys)) → coerceTags v = [])
  ∧ coerceTags (some (.arr [.str "A", .str "", .str " b "])) = ["A", "b"] := by
  refine ⟨?_, ?_, rfl⟩
  · induction xs with
    | nil => rfl
    | cons x xs ih =>
      cases x with
      | str t =>
        by_cases h : t = ""
        · subst h
          simpa [coerceTags, stringEntries, List.filterMap_cons] using ih
        · have hl : t.length > 0 := (string_length_pos_iff t).mpr h
          simpa [coerceTags, stringEntries, List.filterMap_cons, hl, h]
            using ih
      | null => simpa [coerceTags, stringEntries, List.filterMap_cons] using ih
      | bool b => simpa [coerceTags, stringEntries, List.filterMap_cons] using ih
      | num n => simpa [coerceTags, stringEntries, List.filterMap_cons] using ih
      | arr ys => simpa [coerceTags, stringEntries, List.filterMap_cons] using ih
      | obj fs => simpa [coerceTags, stringEntries, List.filterMap_cons] using ih
  · intro v hv
    match v with
    | none => rfl
    | some .null => rfl
    | some (.bool b) => rfl
    | some (.num n) => rfl
    | some (.str s) => rfl
    | some (.obj fs) => rfl
    | some (.arr ys) => exact absurd rfl (hv ys)

/-- Witness for the tags-coercion theorem at concrete inputs: an absent
tags value yields the empty sequence and the documented example holds. -/
theorem coerceTags_spec_witness :
    coerceTags none = []
  ∧ coerceTags (some (.arr [.str "A", .str "", .str " b "])) = ["A", "b"] :=
  ⟨(coerceTags_spec []).2.1 none (fun _ h => Option.noConfusion h),
   (coerceTags_spec []).2.2⟩

/-- Counterexample to claim C5 as stated: a whitespace-only entry is
string-typed and non-empty, so the code keeps it and trims it to the
empty string — the resulting tag sequence contains "" although the claim
asserts every resulting tag is non-empty. -/
theorem coerceTags_whitespace_counterexample :
    coerceTags (some (.arr [.str " "])) = [""]
  ∧ ¬(∀ t ∈ coerceTags (some (.arr [.str " "])), t ≠ "") := by
  exact ⟨rfl, by decide⟩

theorem validateElem_ne_null (uid : String) (e : JsonValue) (i : Nat)
    (h : e ≠ .null) :
    validateElem uid e i =
      (match getField e "url" with
       | some (.str u) =>
         if u = "" then
           Except.error s!"Invalid data at index {i}: Missing/invalid URL."
         else
           Except.ok { user_id := uid, url := u,
                       title := coerceStr (getField e "title"),
                       description := coerceStr (getField e "description"),
                       tags := coerceTags (getField e "tags"),
                       category := coerceStr (getField e "category"),
                       favicon_url := coerceStr (getField e "favicon_url") }
       | _ => Except.error s!"Invalid data at index {i}: Missing/invalid URL.") := by
  cases e with
  | null => exact absurd rfl h
  | bool b => rfl
  | num n => rfl
  | str s => rfl
  | arr xs => rfl
  | obj fs => rfl

/-- Claim C6 (amended): a non-array parsed document is rejected with the
format error; a `null` element makes the very first property access
`link.url` throw a TypeError whose message does NOT name the index
(the import still fails, through the same catch); any other element is
rejected — with a message naming its index — iff its `url` field is NOT
a non-empty string (absent, non-string, or the empty string, which is
JavaScript-falsy); and with a usable `url` the element always validates,
with every other field coerced to string-or-absent (non-string values
become absent, never an error). -/
theorem validateElem_spec (uid : String) (e : JsonValue) (i : Nat) :
    ((∃ m, validateElem uid e i = .error m) ↔ ¬goodUrl e)
  ∧ (e = .null → validateElem uid e i =
      .error "Cannot read properties of null (reading url)")
  ∧ (e ≠ .null → ∀ m, validateElem uid e i = .error m →
      m = s!"Invalid data at index {i}: Missing/invalid URL.")
  ∧ (goodUrl e → ∃ r, validateElem uid e i = .ok r ∧
      r.title = coerceStr (getField e "title") ∧
      r.description = coerceStr (getField e "description") ∧
      r.category = coerceStr (getField e "category") ∧
      r.favicon_url = coerceStr (getField e "favicon_url"))
  ∧ (∀ v : Option JsonValue, (∀ s, v ≠ some (.str s)) → coerceStr v = none)
  ∧ (∀ doc : JsonValue, (∀ xs, doc ≠ .arr xs) →
      handleFileChange uid doc =
        .importError "Invalid JSON format: Expected an array.") := by
  refine ⟨?_, ?_, ?_, ?_, ?_, ?_⟩
  · cases e with
    | null =>
      constructor
      · intro _
        rintro ⟨u, hu, _⟩
        simp [getField] at hu
      · intro _
        exact ⟨_, rfl⟩
    | bool b =>
      rw [validateElem_ne_null _ _ _ (fun h => JsonValue.noConfusion h)]
      simp [getField, goodUrl]
    | num n =>
      rw [validateElem_ne_null _ _ _ (fun h => JsonValue.noConfusion h)]
      simp [getField, goodUrl]
    | str s =>
      rw [validateElem_ne_null _ _ _ (fun h => JsonValue.noConfusion h)]
      simp [getField, goodUrl]
    | arr xs =>
      rw [validateElem_ne_null _ _ _ (fun h => JsonValue.noConfusion h)]
      simp [getField, goodUrl]
    | obj fs =>
      rw [validateElem_ne_null _ _ _ (fun h => JsonValue.noConfusion h)]
      match hu : getField (.obj fs) "url" with
      | none => simp [hu, goodUrl]
      | some .null => simp [hu, goodUrl]
      | some (.bool b) => simp [hu, goodUrl]
      | some (.num n) => simp [hu, goodUrl]
      | some (.arr ys) => simp [hu, goodUrl]
      | some (.obj fs2) => simp [hu, goodUrl]
      | some (.str u) =>
        by_cases h : u = ""
        · subst h
          simp [hu, goodUrl]
        · simp [hu, goodUrl, h]
  · intro h
    subst h
    rfl
  · intro hne m
    cases e with
    | null => exact absurd rfl hne
    | bool b =>
      rw [validateElem_ne_null _ _ _ (fun h => JsonValue.noConfusion h)]
      intro h; cases h; rfl
    | num n =>
      rw [validateElem_ne_null _ _ _ (fun h => JsonValue.noConfusion h)]
      intro h; cases h; rfl
    | str s =>
      rw [validateElem_ne_null _ _ _ (fun h => JsonValue.noConfusion h)]
      intro h; cases h; rfl
    | arr xs =>
      rw [validateElem_ne_null _ _ _ (fun h => JsonValue.noConfusion h)]
      intro h; cases h; rfl
    | obj fs =>
      rw [validateElem_ne_null _ _ _ (fun h => JsonValue.noConfusion h)]
      match getField (.obj fs) "url" with
      | none => intro h; cases h; rfl
      | some .null => intro h; cases h; rfl
      | some (.bool b) => intro h; cases h; rfl
      | some (.num n) => intro h; cases h; rfl
      | some (.arr ys) => intro h; cases h; rfl
      | some (.obj fs2) => intro h; cases h; rfl
      | some (.str u) =>
        by_cases h : u = ""
        · simp only [if_pos h]
          intro h2; cases h2; rfl
        · simp only [if_neg h]
          intro h2; cases h2
  · rintro ⟨u, hu, hne⟩
    cases e with
    | null => simp [getField] at hu
    | bool b => simp [getField] at hu
    | num n => simp [getField] at hu
    | str s => simp [getField] at hu
    | arr xs => simp [getField] at hu
    | obj fs =>
      rw [validateElem_ne_null _ _ _ (fun h => JsonValue.noConfusion h), hu]
      simp only [if_neg hne]
      exact ⟨_, rfl, rfl, rfl, rfl, rfl⟩
  · intro v hv
    match v with
    | none => rfl
    | some .null => rfl
    | some (.bool b) => rfl
    | some (.num n) => rfl
    | some (.arr ys) => rfl
    | some (.obj fs) => rfl
    | some (.str s) => exact absurd rfl (hv s)
  · intro doc hdoc
    match doc with
    | .null => rfl
    | .bool b => rfl
    | .num n => rfl
    | .str s => rfl
    | .obj fs => rfl
    | .arr xs => exact absurd rfl (hdoc xs)

/-- Witness for the import-validation theorem: an element with a usable
URL and a numeric title validates, coercing the non-string title to
absent; a `null` element fails with the index-free TypeError message; a
non-array root is rejected with the format error. -/
theorem validateElem_spec_witness :
    goodUrl (.obj [("url", .str "https://a.com"), ("title", .num 3)])
  ∧ (∃ r, validateElem "u"
        (.obj [("url", .str "https://a.com"), ("title", .num 3)]) 0 = .ok r ∧
      r.title = coerceStr (getField
        (.obj [("url", .str "https://a.com"), ("title", .num 3)]) "title") ∧
      r.description = coerceStr (getField
        (.obj [("url", .str "https://a.com"), ("title", .num 3)]) "description") ∧
      r.category = coerceStr (getField
        (.obj [("url", .str "https://a.com"), ("title", .num 3)]) "category") ∧
      r.favicon_url = coerceStr (getField
        (.obj [("url", .str "https://a.com"), ("title", .num 3)]) "favicon_url"))
  ∧ validateElem "u" .null 0 =
      .error "Cannot read properties of null (reading url)"
  ∧ handleFileChange "u" (.str "not an array") =
      .importError "Invalid JSON format: Expected an array." := by
  have hg : goodUrl (.obj [("url", .str "https://a.com"), ("title", .num 3)]) :=
    ⟨"https://a.com", rfl, by decide⟩
  refine ⟨hg, ?_, ?_, ?_⟩
  · exact (validateElem_spec "u"
      (.obj [("url", .str "https://a.com"), ("title", .num 3)]) 0).2.2.2.1 hg
  · exact (validateElem_spec "u" .null 0).2.1 rfl
  · exact (validateElem_spec "u"
      (.obj [("url", .str "https://a.com"), ("title", .num 3)]) 0).2.2.2.2.2
      (.str "not an array") (fun _ h => JsonValue.noConfusion h)

/-- Counterexample to claim C6 as stated, twice over: an element whose
`url` field is present and string-typed but empty is rejected although
the claim says rejection happens iff `url` is absent or not a string;
and importing the valid document [null] — whose element has no `url` at
all — fails with the TypeError message, which does not identify the
offending index as the claim requires. -/
theorem validateElem_empty_url_counterexample :
    getField (.obj [("url", .str "")]) "url" = some (.str "")
  ∧ validateElem "u" (.obj [("url", .str "")]) 0 =
      .error "Invalid data at index 0: Missing/invalid URL."
  ∧ handleFileChange "u" (.arr [.null]) =
      .importError "Cannot read properties of null (reading url)"
  ∧ ("Cannot read properties of null (reading url)" : String) ≠
      "Invalid data at index 0: Missing/invalid URL." :=
  ⟨rfl, rfl, rfl, by decide⟩

theorem coerceStr_optStr (v : Option String) :
    coerceStr (some (optStr v)) = v := by
  cases v <;> rfl

theorem coerceTags_export (ts : List String)
    (h : ∀ t ∈ ts, t ≠ "" ∧ jsTrim t = t) :
    coerceTags (some (.arr (ts.map .str))) = ts := by
  induction ts with
  | nil => rfl
  | cons t ts ih =>
    have ht := h t (List.mem_cons_self t ts)
    have hl : t.length > 0 := (string_length_pos_iff t).mpr ht.1
    have ih2 := ih (fun x hx => h x (List.mem_cons_of_mem _ hx))
    simp only [coerceTags, List.map_cons, List.filterMap_cons,
      List.filterMap_map] at ih2 ⊢
    simp [hl, ht.2, ih2]

theorem validateElem_exportRow (uid : String) (i : Nat) (l : LinkType)
    (hurl : l.url ≠ "") (htags : ∀ t ∈ l.tags, t ≠ "" ∧ jsTrim t = t) :
    validateElem uid (exportRow l) i = .ok (insertOf uid l) := by
  have h0 : validateElem uid (exportRow l) i =
      if l.url = "" then
        .error s!"Invalid data at index {i}: Missing/invalid URL."
      else
        .ok { user_id := uid, url := l.url,
              title := coerceStr (some (optStr l.title)),
              description := coerceStr (some (optStr l.description)),
              tags := coerceTags (some (.arr (l.tags.map .str))),
              category := coerceStr (some (optStr l.category)),
              favicon_url := coerceStr (some (optStr l.favicon_url)) } := rfl
  rw [h0, if_neg hurl, coerceTags_export l.tags htags]
  unfold insertOf
  simp [coerceStr_optStr]

theorem linksToInsert_export (uid : String) (ls : List LinkType) (i : Nat)
    (h : ∀ l ∈ ls, l.url ≠ "" ∧ ∀ t ∈ l.tags, t ≠ "" ∧ jsTrim t = t) :
    linksToInsert uid (ls.map exportRow) i = .ok (ls.map (insertOf uid)) := by
  induction ls generalizing i with
  | nil => rfl
  | cons l ls ih =>
    have hl := h l (List.mem_cons_self l ls)
    have ih2 := ih (i + 1) (fun x hx => h x (List.mem_cons_of_mem _ hx))
    simp [linksToInsert, validateElem_exportRow uid i l hl.1 hl.2, ih2]

/-- Claim C7 (amended): for a record set whose URLs are non-empty and
whose tags are non-empty and already trimmed (the data-model invariant),
the import of the exported document succeeds and yields the insert payload
with exactly the original url, title, description, tags, category and
favicon values, in the original order.  The amendment: the creation
timestamp, though exported, is not part of the insert payload (the store
reassigns it), and tags with surrounding whitespace would come back
trimmed, so equality in ALL exported fields does not hold in general. -/
theorem export_import_roundtrip (uid : String) (links : List LinkType)
    (h : ∀ l ∈ links, l.url ≠ "" ∧ ∀ t ∈ l.tags, t ≠ "" ∧ jsTrim t = t) :
    linksToInsert uid (links.map exportRow) 0 = .ok (links.map (insertOf uid))
  ∧ (links ≠ [] → handleFileChange uid (handleExport links) =
      .insert (links.map (insertOf uid)))
  ∧ (∀ l ∈ links,
      (insertOf uid l).url = l.url ∧ (insertOf uid l).title = l.title ∧
      (insertOf uid l).description = l.description ∧
      (insertOf uid l).tags = l.tags ∧
      (insertOf uid l).category = l.category ∧
      (insertOf uid l).favicon_url = l.favicon_url) := by
  refine ⟨linksToInsert_export uid links 0 h, ?_, ?_⟩
  · intro hne
    obtain ⟨l, ls, rfl⟩ : ∃ a b, links = a :: b := by
      cases links with
      | nil => exact absurd rfl hne
      | cons a b => exact ⟨a, b, rfl⟩
    have hstep : handleFileChange uid (handleExport (l :: ls)) =
        (match linksToInsert uid ((l :: ls).map exportRow) 0 with
         | .error m => ImportOutcome.importError m
         | .ok rows => ImportOutcome.insert rows) := rfl
    rw [hstep, linksToInsert_export uid (l :: ls) 0 h]
  · intro l _
    exact ⟨rfl, rfl, rfl, rfl, rfl, rfl⟩

/-- Witness for the round-trip theorem: a concrete record with URL
"https://x.com" and tags ["go"] survives export-then-import as the
corresponding insert payload. -/
theorem export_import_roundtrip_witness :
    (∀ l ∈ ([{ id := "1", user_id := "u", url := "https://x.com",
               title := some "X", description := none, tags := ["go"],
               category := some "dev", created_at := "2024-01-01",
               favicon_url := none }] : List LinkType),
        l.url ≠ "" ∧ ∀ t ∈ l.tags, t ≠ "" ∧ jsTrim t = t)
  ∧ handleFileChange "u" (handleExport
      ([{ id := "1", user_id := "u", url := "https://x.com",
          title := some "X", description := none, tags := ["go"],
          category := some "dev", created_at := "2024-01-01",
          favicon_url := none }] : List LinkType)) =
      .insert (([{ id := "1", user_id := "u", url := "https://x.com",
                   title := some "X", description := none, tags := ["go"],
                   category := some "dev", created_at := "2024-01-01",
                   favicon_url := none }] : List LinkType).map (insertOf "u")) := by
  have hh : ∀ l ∈ ([{ id := "1", user_id := "u", url := "https://x.com",
                      title := some "X", description := none, tags := ["go"],
                      category := some "dev", created_at := "2024-01-01",
                      favicon_url := none }] : List LinkType),
      l.url ≠ "" ∧ ∀ t ∈ l.tags, t ≠ "" ∧ jsTrim t = t := by decide
  exact ⟨hh, (export_import_roundtrip "u" _ hh).2.1 (by decide)⟩

/-- Counterexample to claim C7 as stated: a record with the legal tag
" b " (non-empty, with surrounding whitespace) exports to tags [" b "]
but imports back with tags ["b"], so the imported records are not equal
to the originals in all exported fields. -/
theorem export_import_roundtrip_counterexample :
    handleFileChange "u" (handleExport
      [{ id := "1", user_id := "u", url := "https://x.com", title := none,
         description := none, tags := [" b "], category := none,
         created_at := "2024-01-01T00:00:00Z", favicon_url := none }]) =
      .insert [{ user_id := "u", url := "https://x.com", title := none,
                 description := none, tags := ["b"], category := none,
                 favicon_url := none }]
  ∧ ([" b "] : List String) ≠ ["b"] :=
  ⟨rfl, by decide⟩

theorem withProtocol_ne_of_not_startsWith (u : String)
    (h : (jsStartsWith u "http://" || jsStartsWith u "https://") = false) :
    withProtocol u ≠ u := by
  unfold withProtocol
  rw [h]
  simp only [Bool.false_eq_true, if_false]
  intro heq
  have hlen : ("http://" ++ u).length = u.length := by rw [heq]
  rw [String.length_append] at hlen
  have h7 : ("http://" : String).length = 7 := rfl
  omega

/-- Claim C8 (amended): the handler prefixes `http://` exactly when the
input does not already start with the literal `http://` or `https://`
(so a URL with a different explicit scheme is prefixed as well); a
missing URL parameter gives 400, a URL rejected by URL construction
gives 400, an upstream timeout gives 504, a non-OK upstream response
propagates its own status, and any other upstream failure gives 500;
when the URL is accepted, the fetched URL is the prefixed string. -/
theorem metadataGET_spec (validUrl : String → Bool) (up : UpstreamOutcome)
    (u : String) (hu : u ≠ "") :
    (withProtocol u = u ↔
      (jsStartsWith u "http://" || jsStartsWith u "https://") = true)
  ∧ (metadataGET none validUrl up).status = 400
  ∧ (validUrl (withProtocol u) = false →
      (metadataGET (some u) validUrl up).status = 400)
  ∧ (validUrl (withProtocol u) = true →
      (metadataGET (some u) validUrl up).fetchedUrl = some (withProtocol u)
    ∧ (metadataGET (some u) validUrl up).status =
        (match up with
         | .ok _ => 200
         | .nonOk st _ => st
         | .timeout => 504
         | .failure _ => 500)) := by
  refine ⟨?_, rfl, ?_, ?_⟩
  · constructor
    · intro heq
      by_contra hns
      exact withProtocol_ne_of_not_startsWith u
        (Bool.not_eq_true _ ▸ hns) heq
    · intro hs
      unfold withProtocol
      rw [hs]
      rfl
  · intro hv
    unfold metadataGET
    simp only [if_neg hu]
    rw [hv]
    cases up <;> rfl
  · intro hv
    unfold metadataGET
    simp only [if_neg hu]
    rw [hv]
    cases up <;> exact ⟨rfl, rfl⟩

/-- Witness for the metadata-route theorem: with input "example.com"
(no scheme), an always-accepting URL parser and a timed-out upstream,
the handler fetches "http://example.com" and returns 504. -/
theorem metadataGET_spec_witness :
    ("example.com" : String) ≠ ""
  ∧ (metadataGET (some "example.com") (fun _ => true) .timeout).fetchedUrl =
      some (withProtocol "example.com")
  ∧ (metadataGET (some "example.com") (fun _ => true) .timeout).status = 504 := by
  have h := (metadataGET_spec (fun _ => true) .timeout "example.com"
    (by decide)).2.2.2 rfl
  exact ⟨by decide, h.1, h.2⟩

/-- Counterexample to claim C8 as stated: "ftp://example.com" carries an
explicit scheme, yet the handler still prefixes it with `http://` — the
prefixing condition is not "no scheme given" but "does not start with
http:// or https://". -/
theorem metadataGET_scheme_counterexample :
    hasScheme "ftp://example.com" = true
  ∧ withProtocol "ftp://example.com" = "http://ftp://example.com"
  ∧ withProtocol "ftp://example.com" ≠ "ftp://example.com" :=
  ⟨rfl, rfl, by decide⟩

theorem mem_parseTags_ne_empty {content tag : String}
    (h : tag ∈ parseTags content) : tag ≠ "" := by
  unfold parseTags at h
  rw [List.mem_filter] at h
  have h2 := h.2
  simp only [Bool.and_eq_true, bne_iff_ne] at h2
  exact h2.1

theorem suggestTags_result_cases (env : AIEnv) (text : String) :
    suggestTagsFromText env text = [] ∨
    ∃ content, suggestTagsFromText env text = parseTags content := by
  obtain ⟨au, ak, fr⟩ := env
  by_cases htext : jsTrim text = ""
  · left
    simp [suggestTagsFromText, htext]
  · cases au with
    | none => left; simp [suggestTagsFromText, htext]
    | some u =>
      cases ak with
      | none => left; simp [suggestTagsFromText, htext]
      | some k =>
        by_cases huk : (u = "" || k = "") = true
        · left; simp [suggestTagsFromText, htext, huk]
        · cases fr with
          | httpError st sx => left; simp [suggestTagsFromText, htext, huk]
          | networkFailure m => left; simp [suggestTagsFromText, htext, huk]
          | ok body =>
            cases hrc : responseContent body with
            | none => left; simp [suggestTagsFromText, htext, huk, hrc]
            | some content =>
              right
              exact ⟨content, by simp [suggestTagsFromText, htext, huk, hrc]⟩

/-- Claim C9: the tag-suggestion function returns a plain list on every
path (the model is total, mirroring the try/catch): misconfiguration
(unset or empty endpoint/key), a thrown fetch failure, a non-OK
response, or an unexpectedly shaped body each yield the empty list;
a well-shaped OK response yields the content split on commas with each
entry trimmed, lowercased, and empty entries removed; and every returned
tag is non-empty. -/
theorem suggestTagsFromText_spec (env : AIEnv) (text : String) :
    (env.apiUrl = none ∨ env.apiUrl = some "" ∨ env.apiKey = none ∨
       env.apiKey = some "" → suggestTagsFromText env text = [])
  ∧ (∀ st sx, env.fetchResult = .httpError st sx →
      suggestTagsFromText env text = [])
  ∧ (∀ m, env.fetchResult = .networkFailure m →
      suggestTagsFromText env text = [])
  ∧ (∀ body, env.fetchResult = .ok body → responseContent body = none →
      suggestTagsFromText env text = [])
  ∧ (∀ body content, env.fetchResult = .ok body →
      responseContent body = some content → jsTrim text ≠ "" →
      (∀ u, env.apiUrl = some u → u ≠ "") → env.apiUrl ≠ none →
      (∀ k, env.apiKey = some k → k ≠ "") → env.apiKey ≠ none →
      suggestTagsFromText env text = parseTags content)
  ∧ (∀ tag ∈ suggestTagsFromText env text, tag ≠ "") := by
  obtain ⟨au, ak, fr⟩ := env
  have hlast : ∀ tag ∈ suggestTagsFromText ⟨au, ak, fr⟩ text, tag ≠ "" := by
    rcases suggestTags_result_cases ⟨au, ak, fr⟩ text with hz | ⟨c, hc⟩
    · rw [hz]; intro tag ht; cases ht
    · rw [hc]; intro tag ht; exact mem_parseTags_ne_empty ht
  by_cases htext : jsTrim text = ""
  · have hz : suggestTagsFromText ⟨au, ak, fr⟩ text = [] := by
      simp [suggestTagsFromText, htext]
    exact ⟨fun _ => hz, fun _ _ _ => hz, fun _ _ => hz, fun _ _ _ => hz,
      fun _ _ _ _ ht _ _ _ _ => absurd htext ht, hlast⟩
  · cases au with
    | none =>
      have hz : suggestTagsFromText ⟨none, ak, fr⟩ text = [] := by
        simp [suggestTagsFromText, htext]
      exact ⟨fun _ => hz, fun _ _ _ => hz, fun _ _ => hz, fun _ _ _ => hz,
        fun _ _ _ _ _ _ hnn _ _ => absurd rfl hnn, hlast⟩
    | some u =>
      cases ak with
      | none =>
        have hz : suggestTagsFromText ⟨some u, none, fr⟩ text = [] := by
          simp [suggestTagsFromText, htext]
        exact ⟨fun _ => hz, fun _ _ _ => hz, fun _ _ => hz, fun _ _ _ => hz,
          fun _ _ _ _ _ _ _ _ hnn => absurd rfl hnn, hlast⟩
      | some k =>
        by_cases hu : u = ""
        · have hz : suggestTagsFromText ⟨some u, some k, fr⟩ text = [] := by
            simp [suggestTagsFromText, htext, hu]
          exact ⟨fun _ => hz, fun _ _ _ => hz, fun _ _ => hz, fun _ _ _ => hz,
            fun _ _ _ _ _ hcfg _ _ _ => absurd hu (hcfg u rfl), hlast⟩
        · by_cases hk : k = ""
          · have hz : suggestTagsFromText ⟨some u, some k, fr⟩ text = [] := by
              simp [suggestTagsFromText, htext, hu, hk]
            exact ⟨fun _ => hz, fun _ _ _ => hz, fun _ _ => hz,
              fun _ _ _ => hz,
              fun _ _ _ _ _ _ _ hcfg _ => absurd hk (hcfg k rfl), hlast⟩
          · have huk : (u = "" || k = "") = false := by
              simp [hu, hk]
            refine ⟨?_, ?_, ?_, ?_, ?_, hlast⟩
            · rintro (h | h | h | h) <;> cases h
              · exact absurd rfl hu
              · exact absurd rfl hk
            · intro st sx hfr
              subst hfr
              simp [suggestTagsFromText, htext, hu, hk]
            · intro m hfr
              subst hfr
              simp [suggestTagsFromText, htext, hu, hk]
            · intro body hfr hrc
              cases hfr
              simp [suggestTagsFromText, htext, hu, hk, hrc]
            · intro body content hfr hrc _ _ _ _ _
              cases hfr
              simp [suggestTagsFromText, htext, hu, hk, hrc]

/-- Witness for the tag-suggestion theorem: a configured environment with
a well-shaped OK response containing "Tech, AI" yields the processed tag
list, which equals parseTags of the content and evaluates to
["tech", "ai"]. -/
theorem suggestTagsFromText_spec_witness :
    suggestTagsFromText
      { apiUrl := some "https://api", apiKey := some "key",
        fetchResult := .ok (.obj [("choices", .arr [.obj [("message",
          .obj [("content", .str "Tech, AI")])]])]) } "some text" =
      parseTags "Tech, AI"
  ∧ parseTags "Tech, AI" = ["tech", "ai"] := by
  refine ⟨?_, rfl⟩
  exact (suggestTagsFromText_spec
    { apiUrl := some "https://api", apiKey := some "key",
      fetchResult := .ok (.obj [("choices", .arr [.obj [("message",
        .obj [("content", .str "Tech, AI")])]])]) } "some text").2.2.2.2.1
    (.obj [("choices", .arr [.obj [("message",
      .obj [("content", .str "Tech, AI")])]])]) "Tech, AI" rfl rfl
    (by decide)
    (fun u h => by cases h; decide) (fun h => Option.noConfusion h)
    (fun k h => by cases h; decide) (fun h => Option.noConfusion h)

theorem linksToInsert_length (uid : String) (elems : List JsonValue)
    (i : Nat) (rows : List InsertRecord)
    (h : linksToInsert uid elems i = .ok rows) :
    rows.length = elems.length := by
  induction elems generalizing i rows with
  | nil => cases h; rfl
  | cons e es ih =>
    unfold linksToInsert at h
    cases hv : validateElem uid e i with
    | error m => rw [hv] at h; cases h
    | ok r =>
      rw [hv] at h
      cases hrest : linksToInsert uid es (i + 1) with
      | error m => rw [hrest] at h; cases h
      | ok rs =>
        rw [hrest] at h
        cases h
        simp [ih (i + 1) rs hrest]

/-- Claim C10: an import document that parses to an empty array produces
the non-error "no links" outcome without any insert, and the bulk insert
is only ever issued with at least one validated row. -/
theorem import_empty_no_insert (uid : String) :
    handleFileChange uid (.arr []) = .noLinks
  ∧ (∀ doc rows, handleFileChange uid doc = .insert rows → rows ≠ []) := by
  refine ⟨rfl, ?_⟩
  intro doc rows h
  cases doc with
  | arr elems =>
    have h2 : (if elems.length = 0 then ImportOutcome.noLinks
        else match linksToInsert uid elems 0 with
          | .error m => ImportOutcome.importError m
          | .ok rows => ImportOutcome.insert rows) = .insert rows := h
    by_cases hlen : elems.length = 0
    · rw [if_pos hlen] at h2
      cases h2
    · rw [if_neg hlen] at h2
      cases hins : linksToInsert uid elems 0 with
      | error m => rw [hins] at h2; cases h2
      | ok rs =>
        rw [hins] at h2
        cases h2
        have hrows := linksToInsert_length uid elems 0 rows hins
        intro hnil
        rw [hnil] at hrows
        exact hlen hrows.symm
  | null => cases h
  | bool b => cases h
  | num n => cases h
  | str s => cases h
  | obj fs => cases h

/-- Witness for the empty-import theorem: the empty array yields the
"no links" outcome, and a one-element document yields a non-empty insert
payload. -/
theorem import_empty_no_insert_witness :
    handleFileChange "u" (.arr []) = .noLinks
  ∧ ([{ user_id := "u", url := "https://a.com", title := none,
        description := none, tags := [], category := none,
        favicon_url := none }] : List InsertRecord) ≠ [] :=
  ⟨(import_empty_no_insert "u").1,
   (import_empty_no_insert "u").2 (.arr [.obj [("url", .str "https://a.com")]])
     [{ user_id := "u", url := "https://a.com", title := none,
        description := none, tags := [], category := none,
        favicon_url := none }] rfl⟩
